import Mathlib

/-!
# Verification of cloud-cost-guard (cmd/server/main.go)

A shallow embedding of the core of the `cloud-cost-guard` service:
the cost store (Postgres tables `daily_costs` and `alerts` with the
SQL issued by `main.go`), the anomaly detector
(`detectAnomaliesForDate`), the simulated sampler
(`insertSimulatedDay`), the scheduler (`backfill`,
`generateAndCheckToday`, the ticker loop in `main`), and the HTTP
parameter validation of the `/costs`, `/alerts` and
`/simulate/backfill` handlers.

Modelling conventions:
* calendar dates are `Int` (days on the calendar line; `AddDate(0,0,n)`
  and SQL `date + interval 'n days'` are integer addition);
* monetary amounts are `ℚ` (the table column is exact decimal
  `numeric(12,2)`; the float64 casts in the Go code are exact on every
  value the claims exercise);
* the `daily_costs` table is a `List CostRecord`; its `PRIMARY KEY
  (date, service)` is the `keyUnique` predicate; `INSERT ... ON
  CONFLICT (date, service) DO UPDATE` is `upsert`;
* the `alerts` table is a `List Alert`, append-only; the
  `fmt.Sprintf` message is represented by the two numbers it embeds
  (`todayAmt`, `avg7`), string formatting being irrelevant to every
  property under study.
-/

namespace CostGuard

/-- One row of `daily_costs`: `(date, service, amount, currency)`. -/
structure CostRecord where
  date : Int
  service : String
  amount : ℚ
  currency : String
  deriving DecidableEq, Repr

/-- One row of `alerts` as written by `detectAnomaliesForDate`:
`(date, service, 'ANOMALY', message)`, with the message's two numeric
fields (`today=%.2f`, `7d_avg=%.2f`) kept as exact rationals. -/
structure Alert where
  date : Int
  service : String
  type : String
  todayAmt : ℚ
  avg7 : ℚ
  deriving DecidableEq, Repr

/-- The tracked services: `var services = []string{"compute", "storage", "db", "network"}`. -/
def services : List String := ["compute", "storage", "db", "network"]

/-- A record matches the key `(d, s)`. -/
def keyMatch (d : Int) (s : String) (r : CostRecord) : Bool :=
  r.date == d && r.service == s

/-- The `PRIMARY KEY (date, service)` invariant: at most one row per key. -/
def keyUnique (store : List CostRecord) : Prop :=
  store.Pairwise (fun r₁ r₂ => ¬(r₁.date = r₂.date ∧ r₁.service = r₂.service))

/-- All rows of the store holding the key `(d, s)`. -/
def recordsFor (store : List CostRecord) (d : Int) (s : String) : List CostRecord :=
  store.filter (keyMatch d s)

/-- The upsert statement `INSERT INTO daily_costs(date, service, amount, currency) VALUES
($1,$2,$3,'USD'-like) ON CONFLICT (date, service) DO UPDATE SET amount
= EXCLUDED.amount, currency = EXCLUDED.currency`: replace the row with
this key if present, otherwise append a fresh row.  Total: the
statement cannot fail on a well-formed store. -/
def upsert (store : List CostRecord) (d : Int) (s : String) (a : ℚ) (c : String) :
    List CostRecord :=
  if store.any (keyMatch d s) then
    store.map (fun r => if keyMatch d s r then { r with amount := a, currency := c } else r)
  else
    store ++ [⟨d, s, a, c⟩]

/-- The point lookup `SELECT amount FROM daily_costs WHERE date=$1 AND service=$2`:
point lookup; `none` is pgx's `no rows in result set`. -/
def getAmount (store : List CostRecord) (d : Int) (s : String) : Option ℚ :=
  (store.find? (keyMatch d s)).map (·.amount)

/-- The SQL window predicate of the trailing average:
`service=$1 AND date < $2 AND date >= ($2::date - interval 'w days')`. -/
def inWindow (s : String) (d w : Int) (r : CostRecord) : Bool :=
  r.service == s && decide (r.date < d) && decide (d - w ≤ r.date)

/-- The window query `SELECT COALESCE(AVG(amount), 0) FROM daily_costs WHERE service=$1
AND date < $2 AND date >= ($2::date - interval '7 days')` with the
window length as a parameter: the mean of the qualifying amounts, `0`
when no row qualifies. -/
def trailingAverage (store : List CostRecord) (s : String) (d w : Int) : ℚ :=
  let xs := store.filter (inWindow s d w)
  if xs.isEmpty then 0 else (xs.map (·.amount)).sum / (xs.length : ℚ)

/-- The spec's own words for §4.1 `TrailingAverage` (for the refinement
claim): the arithmetic mean of `amount` over all existing records for
that service with date strictly less than the given date and within
`windowDays` calendar days before it; missing days are simply absent;
zero when no qualifying record exists. -/
def specTrailingMean (store : List CostRecord) (s : String) (d w : Int) : ℚ :=
  let qual := store.filter (fun r =>
    r.service == s && decide (r.date < d) && decide (r.date ≥ d - w))
  if qual.length = 0 then 0 else (qual.map (·.amount)).sum / (qual.length : ℚ)

/-- One service's step of `detectAnomaliesForDate`: read today's
amount (propagating `no rows`), compute `avg7`, and `INSERT INTO
alerts` when `avg7 > 0 && today > 1.5*avg7`.  Returns the grown alert
list and an error when the point lookup failed. -/
def detectService (store : List CostRecord) (alerts : List Alert) (d : Int) (s : String) :
    List Alert × Option String :=
  match getAmount store d s with
  | none => (alerts, some "no rows in result set")
  | some today =>
    let avg7 := trailingAverage store s d 7
    if 0 < avg7 ∧ 3/2 * avg7 < today then
      (alerts ++ [⟨d, s, "ANOMALY", today, avg7⟩], none)
    else
      (alerts, none)

/-- The `for _, s := range services` loop of `detectAnomaliesForDate`:
process the services in order, returning the first error immediately
(alerts already written stay written — there is no transaction). -/
def detectLoop (store : List CostRecord) (alerts : List Alert) (d : Int) :
    List String → List Alert × Option String
  | [] => (alerts, none)
  | s :: rest =>
    match detectService store alerts d s with
    | (al, some e) => (al, some e)
    | (al, none) => detectLoop store al d rest

/-- The whole `detectAnomaliesForDate`: run the loop over the fixed service list. -/
def detectAnomaliesForDate (store : List CostRecord) (alerts : List Alert) (d : Int) :
    List Alert × Option String :=
  detectLoop store alerts d services

/-- Number of alerts in the list for the key `(d, s)`. -/
def alertCount (alerts : List Alert) (d : Int) (s : String) : Nat :=
  (alerts.filter (fun a => a.date == d && a.service == s)).length

/-- The error-free prefix of the detector loop: process the listed
services, appending whatever alerts they raise (used to state what the
loop has already written when a later service's lookup fails). -/
def detectLoopOk (store : List CostRecord) (alerts : List Alert) (d : Int) :
    List String → List Alert
  | [] => alerts
  | s :: rest => detectLoopOk store (detectService store alerts d s).1 d rest

/-- One `Upsert(date, service, amount, currency)` call's arguments. -/
structure UpsertOp where
  date : Int
  service : String
  amount : ℚ
  currency : String
  deriving DecidableEq, Repr

/-- Apply a sequence of upsert calls to a store, first to last. -/
def applyUpserts (ops : List UpsertOp) (store : List CostRecord) : List CostRecord :=
  ops.foldl (fun st o => upsert st o.date o.service o.amount o.currency) store

/-- The last call of the sequence writing the key `(d, s)`, if any. -/
def lastWriteTo (ops : List UpsertOp) (d : Int) (s : String) : Option UpsertOp :=
  ops.reverse.find? (fun o => o.date == d && o.service == s)

/-- The spike predicate the detector applies to service `s` on day `d`
over a given store: `avg7 > 0 && today > 1.5*avg7`. -/
def spikes (store : List CostRecord) (d : Int) (s : String) (today : ℚ) : Prop :=
  0 < trailingAverage store s d 7 ∧ 3/2 * trailingAverage store s d 7 < today

instance (store : List CostRecord) (d : Int) (s : String) (today : ℚ) :
    Decidable (spikes store d s today) := by
  unfold spikes; infer_instance

/-! ## The simulated sampler (`insertSimulatedDay`) -/

/-- The baseline table of `insertSimulatedDay` (dollars per day); a Go
map lookup of an absent key yields the zero value. -/
def baseline : String → ℚ
  | "compute" => 3
  | "storage" => 4/5
  | "db" => 3/2
  | "network" => 3/5
  | _ => 0

/-- The values one call of `insertSimulatedDay` draws from its
`*rand.Rand` argument, in draw order.  `rand.New(rand.NewSource(seed))`
is a deterministic generator, so a value of this structure is a pure
function of the seed and of the draws consumed before the call:
`intn14` is the result of `rng.Intn(14)` (`< 14` by `Intn`'s contract),
`intnLen` the result of the conditional `rng.Intn(len(services))`
(`< 4`), and `float64 i` the `rng.Float64()` for the `i`-th service
(in `[0,1)`). -/
structure Rng where
  intn14 : Nat
  intnLen : Nat
  float64 : Nat → ℚ

/-- The `spikeService` variable: empty unless `rng.Intn(14) == 0`, in which case a
uniformly drawn tracked service. -/
def spikeServiceOf (r : Rng) : String :=
  if r.intn14 = 0 then services.getD r.intnLen "" else ""

/-- One service's amount: `noise := rng.Float64()*0.6 - 0.3`;
`amt := baseline[s] + noise`; floor at `0.05`; `*3.0` when spiked. -/
def sampleAmount (b : ℚ) (u : ℚ) (spiked : Bool) : ℚ :=
  let noise := u * (3/5) - 3/10
  let amt := b + noise
  let floored := if amt < 1/20 then 1/20 else amt
  if spiked then floored * 3 else floored

/-- The rows `insertSimulatedDay` writes for one day: one record per
tracked service, in `services` order, currency `'USD'`.  The amounts
read nothing but the baseline table and the RNG draws — the date only
becomes the rows' key. -/
def sampleDay (day : Int) (r : Rng) : List CostRecord :=
  let spk := spikeServiceOf r
  services.enum.map (fun p =>
    ⟨day, p.2, sampleAmount (baseline p.2) (r.float64 p.1) (p.2 == spk), "USD"⟩)

/-- The effect of `insertSimulatedDay` on the store: upsert each sampled
row in order. -/
def insertSimulatedDay (store : List CostRecord) (day : Int) (r : Rng) :
    List CostRecord :=
  (sampleDay day r).foldl
    (fun st rec => upsert st rec.date rec.service rec.amount rec.currency) store

/-! ## The scheduler (`backfill`, `generateAndCheckToday`, ticker loop) -/

/-- The externally visible operations the scheduler performs, in
order: sampling-and-upserting one day's costs, or running the anomaly
detector for one day. -/
inductive Event where
  | sample (day : Int)
  | detect (day : Int)
  deriving DecidableEq, Repr

/-- The day of a `sample` event. -/
def Event.sampleDayOf : Event → Option Int
  | .sample d => some d
  | .detect _ => none

/-- The day of a `detect` event. -/
def Event.detectDayOf : Event → Option Int
  | .detect d => some d
  | .sample _ => none

/-- The trace of `generateAndCheckToday`: sample today (fresh time-derived seed),
then `detectAnomaliesForDate(today)`. -/
def generateAndCheckTrace (today : Int) : List Event :=
  [.sample today, .detect today]

/-- The trace of `backfill(ctx, db, days)`: `start := now.AddDate(0,0,-days+1)`;
sample `start`, `start+1`, …, `start+days-1`; then
`generateAndCheckToday`. -/
def backfillTrace (days : Nat) (today : Int) : List Event :=
  ((List.range days).map (fun i : Nat => Event.sample (today - days + 1 + i))) ++
    generateAndCheckTrace today

/-- One ticker iteration of the goroutine in `main`: the result of
`generateAndCheckToday` is logged when it is an error; no branch
leaves the loop. -/
def schedulerTick (lg : List String) (r : Except String Unit) : List String :=
  match r with
  | .ok _ => lg
  | .error e => lg ++ ["scheduler error: " ++ e]

/-- Whether a tick's `generateAndCheckToday` outcome was an error. -/
def isErr : Except String Unit → Bool
  | .error _ => true
  | .ok _ => false

/-- The loop `for range ticker.C` run over a finite prefix of ticks, the
per-tick outcome of `generateAndCheckToday` given as data: returns how
many iterations completed and the final log. -/
def runTicks (lg : List String) : List (Except String Unit) → Nat × List String
  | [] => (0, lg)
  | r :: rest =>
    let out := runTicks (schedulerTick lg r) rest
    (out.1 + 1, out.2)

/-! ## HTTP parameter validation (`/costs`, `/alerts`, `/simulate/backfill`)

`r.URL.Query().Get(k)` returns `""` both for a missing and for an
empty parameter, so a query parameter is modelled as the `String` that
call returns. -/

/-- Outcome of the `/costs` (and identically `/alerts`) handler's
validation: either `400 missing from/to query params`, or the range
query is issued against the store with the raw strings. -/
inductive CostsOutcome where
  | badRequest (msg : String)
  | queryStore (fromD toD : String)
  deriving DecidableEq, Repr

/-- The `/costs` and `/alerts` validation: reject only empty `from`/`to`. -/
def handleCosts (fromP toP : String) : CostsOutcome :=
  if fromP = "" ∨ toP = "" then .badRequest "missing from/to query params"
  else .queryStore fromP toP

/-- True exactly when the handler issued the range query against
the store (the strings go to Postgres unvalidated: a malformed date
surfaces there as a server error, not a client error). -/
def CostsOutcome.reachesStore : CostsOutcome → Bool
  | .queryStore _ _ => true
  | .badRequest _ => false

/-- Outcome of the `/simulate/backfill` handler: `405`, `400`, or the
core `backfill(days)` runs. -/
inductive BackfillOutcome where
  | methodNotAllowed
  | badRequest (msg : String)
  | runBackfill (days : Int)
  deriving DecidableEq, Repr

/-- True exactly on the 4xx client-error responses of the backfill
handler. -/
def BackfillOutcome.isClientError : BackfillOutcome → Bool
  | .badRequest _ => true
  | .methodNotAllowed => true
  | .runBackfill _ => false

/-- True exactly when the handler invoked the core `backfill`. -/
def BackfillOutcome.reachesCore : BackfillOutcome → Bool
  | .runBackfill _ => true
  | _ => false

/-- Greedily consume decimal digits; `acc` is what has been read so
far (`none` when no digit has been read yet). -/
def scanDigits : List Char → Option Nat → Option Nat
  | [], acc => acc
  | c :: rest, acc =>
    if c.isDigit then
      scanDigits rest (some ((acc.getD 0) * 10 + (c.toNat - 48)))
    else acc

/-- Model of the `%d` verb of `fmt.Sscanf(v, "%d", &days)`: skip leading white
space, an optional sign, then at least one decimal digit, consumed
greedily; trailing characters are left unread.  `none` when no integer
can be read — in that case `Sscanf` stores nothing and `days` keeps
its previous value. -/
def sscanfInt (v : String) : Option Int :=
  match v.toList.dropWhile (fun c => c.isWhitespace) with
  | '-' :: rest => (scanDigits rest none).map (fun n => -(n : Int))
  | '+' :: rest => (scanDigits rest none).map (fun n => (n : Int))
  | cs => (scanDigits cs none).map (fun n => (n : Int))

/-- The `/simulate/backfill` handler: POST only; `days := 30`,
overwritten by `Sscanf` only when it parses; then the `1..365` bounds
check; then the core runs. -/
def handleBackfill (method : String) (daysParam : String) : BackfillOutcome :=
  if method ≠ "POST" then .methodNotAllowed
  else
    let days : Int := if daysParam ≠ "" then (sscanfInt daysParam).getD 30 else 30
    if days < 1 ∨ 365 < days then .badRequest "days must be 1..365"
    else .runBackfill days

/-! ## Store lemmas -/

theorem keyMatch_iff (d : Int) (s : String) (r : CostRecord) :
    keyMatch d s r = true ↔ r.date = d ∧ r.service = s := by
  simp [keyMatch]

theorem keyUnique_upsert {store : List CostRecord} (hu : keyUnique store)
    (d : Int) (s : String) (a : ℚ) (c : String) : keyUnique (upsert store d s a c) := by
  unfold upsert
  split
  · unfold keyUnique at hu ⊢
    rw [List.pairwise_map]
    refine hu.imp ?_
    intro r₁ r₂ hne hcon
    apply hne
    by_cases h₁ : keyMatch d s r₁ <;> by_cases h₂ : keyMatch d s r₂ <;>
      simp [h₁, h₂] at hcon <;> exact hcon
  · rename_i hany
    unfold keyUnique at hu ⊢
    rw [List.pairwise_append]
    refine ⟨hu, by simp, ?_⟩
    intro r hr r' hr'
    simp only [List.mem_singleton] at hr'
    subst hr'
    intro hcon
    apply hany
    rw [List.any_eq_true]
    exact ⟨r, hr, (keyMatch_iff d s r).mpr ⟨hcon.1, hcon.2⟩⟩

theorem length_recordsFor_le_one {store : List CostRecord} (hu : keyUnique store)
    (d : Int) (s : String) : (recordsFor store d s).length ≤ 1 := by
  unfold recordsFor
  have hp : (store.filter (keyMatch d s)).Pairwise
      (fun r₁ r₂ => ¬(r₁.date = r₂.date ∧ r₁.service = r₂.service)) := hu.filter _
  rcases h : store.filter (keyMatch d s) with _ | ⟨r₁, _ | ⟨r₂, rest⟩⟩
  · simp
  · simp
  · exfalso
    rw [h, List.pairwise_cons] at hp
    have h₁ : r₁ ∈ store.filter (keyMatch d s) := by rw [h]; simp
    have h₂ : r₂ ∈ store.filter (keyMatch d s) := by rw [h]; simp
    have k₁ := (keyMatch_iff d s r₁).mp (List.of_mem_filter h₁)
    have k₂ := (keyMatch_iff d s r₂).mp (List.of_mem_filter h₂)
    exact hp.1 r₂ (by simp) ⟨by rw [k₁.1, k₂.1], by rw [k₁.2, k₂.2]⟩

theorem filter_map_upsertFun (store : List CostRecord) (d : Int) (s : String)
    (a : ℚ) (c : String) (p : CostRecord → Bool)
    (hdep : ∀ r : CostRecord, p { r with amount := a, currency := c } = p r)
    (hkey : ∀ r : CostRecord, r.date = d → r.service = s → p r = false) :
    (store.map (fun r => if keyMatch d s r then { r with amount := a, currency := c }
      else r)).filter p = store.filter p := by
  induction store with
  | nil => rfl
  | cons r rest ih =>
    simp only [List.map_cons, List.filter_cons]
    by_cases hk : keyMatch d s r = true
    · have hkd := (keyMatch_iff d s r).mp hk
      have hpr : p r = false := hkey r hkd.1 hkd.2
      rw [if_pos hk, hdep, hpr, ih]
      simp
    · rw [if_neg hk]
      cases hpr : p r <;> simp [hpr, ih]

theorem filter_upsert_of_key_out (store : List CostRecord) (d : Int) (s : String)
    (a : ℚ) (c : String) (p : CostRecord → Bool)
    (hdep : ∀ r : CostRecord, p { r with amount := a, currency := c } = p r)
    (hkey : ∀ r : CostRecord, r.date = d → r.service = s → p r = false) :
    (upsert store d s a c).filter p = store.filter p := by
  unfold upsert
  split
  · exact filter_map_upsertFun store d s a c p hdep hkey
  · rw [List.filter_append]
    have : p ⟨d, s, a, c⟩ = false := hkey _ rfl rfl
    simp [this]

theorem recordsFor_upsert_other (store : List CostRecord) (d : Int) (s : String)
    (a : ℚ) (c : String) (d₁ : Int) (s₁ : String) (hne : ¬(d = d₁ ∧ s = s₁)) :
    recordsFor (upsert store d s a c) d₁ s₁ = recordsFor store d₁ s₁ := by
  unfold recordsFor
  apply filter_upsert_of_key_out
  · intro r; simp [keyMatch]
  · intro r h1 h2
    rw [Bool.eq_false_iff]
    intro hcon
    have := (keyMatch_iff d₁ s₁ r).mp hcon
    exact hne ⟨h1 ▸ this.1, h2 ▸ this.2⟩

theorem recordsFor_upsert_self {store : List CostRecord} (hu : keyUnique store)
    (d : Int) (s : String) (a : ℚ) (c : String) :
    recordsFor (upsert store d s a c) d s = [⟨d, s, a, c⟩] := by
  unfold recordsFor upsert
  split
  · rename_i hany
    rw [List.filter_map]
    have hcong : (store.filter (fun r => keyMatch d s
        (if keyMatch d s r then { r with amount := a, currency := c } else r))) =
        store.filter (keyMatch d s) := by
      apply List.filter_congr
      intro r _
      by_cases hk : keyMatch d s r = true
      · rw [if_pos hk]; rfl
      · rw [if_neg hk]
    rw [show (keyMatch d s ∘ fun r =>
        if keyMatch d s r then { r with amount := a, currency := c } else r) = fun r => keyMatch d s
        (if keyMatch d s r then { r with amount := a, currency := c } else r) from rfl]
    rw [hcong]
    rw [List.any_eq_true] at hany
    obtain ⟨r₀, hr₀, hk₀⟩ := hany
    have hne : store.filter (keyMatch d s) ≠ [] := by
      intro hnil
      rw [List.filter_eq_nil_iff] at hnil
      exact hnil r₀ hr₀ hk₀
    have hlen := length_recordsFor_le_one hu d s
    unfold recordsFor at hlen
    have hlen1 : (store.filter (keyMatch d s)).length = 1 := by
      have := List.length_pos.mpr hne
      omega
    obtain ⟨r₁, hr₁⟩ := List.length_eq_one.mp hlen1
    rw [hr₁]
    have hmem : r₁ ∈ store.filter (keyMatch d s) := by rw [hr₁]; simp
    have hk₁ := (keyMatch_iff d s r₁).mp (List.of_mem_filter hmem)
    simp only [List.map_cons, List.map_nil]
    rw [if_pos (List.of_mem_filter hmem)]
    cases r₁
    simp_all
  · rename_i hany
    rw [List.filter_append]
    have h1 : store.filter (keyMatch d s) = [] := by
      rw [List.filter_eq_nil_iff]
      intro r hr hk
      exact hany (List.any_eq_true.mpr ⟨r, hr, hk⟩)
    rw [h1]
    simp [keyMatch]

theorem keyUnique_applyUpserts (ops : List UpsertOp) {store : List CostRecord}
    (hu : keyUnique store) : keyUnique (applyUpserts ops store) := by
  induction ops generalizing store with
  | nil => exact hu
  | cons o rest ih => exact ih (keyUnique_upsert hu o.date o.service o.amount o.currency)

theorem recordsFor_applyUpserts_of_no_write (ops : List UpsertOp) (store : List CostRecord)
    (d : Int) (s : String) (hno : ∀ o ∈ ops, ¬(o.date = d ∧ o.service = s)) :
    recordsFor (applyUpserts ops store) d s = recordsFor store d s := by
  induction ops generalizing store with
  | nil => rfl
  | cons o rest ih =>
    have step : applyUpserts (o :: rest) store =
        applyUpserts rest (upsert store o.date o.service o.amount o.currency) := rfl
    rw [step, ih _ (fun o' ho' => hno o' (List.mem_cons_of_mem o ho')),
      recordsFor_upsert_other _ _ _ _ _ _ _ (hno o (List.mem_cons_self o rest))]

/-- C4: for every sequence of `Upsert` calls applied to a store
satisfying the `(date, service)` primary-key invariant, a key written
at least once ends with exactly one record, whose amount and currency
are those of the last write to that key.  The upsert itself is a total
function (`ON CONFLICT DO UPDATE` never fails), so the sequence never
fails, and the end state is idempotent under re-running the same
write. -/
theorem upsert_last_write_wins (ops : List UpsertOp) (store : List CostRecord)
    (d : Int) (s : String) (o : UpsertOp) (hu : keyUnique store)
    (hlast : lastWriteTo ops d s = some o) :
    recordsFor (applyUpserts ops store) d s = [⟨d, s, o.amount, o.currency⟩] := by
  induction ops generalizing store with
  | nil => simp [lastWriteTo] at hlast
  | cons o₀ rest ih =>
    have step : applyUpserts (o₀ :: rest) store =
        applyUpserts rest (upsert store o₀.date o₀.service o₀.amount o₀.currency) := rfl
    rw [step]
    have hrev : lastWriteTo (o₀ :: rest) d s = (lastWriteTo rest d s).or
        (List.find? (fun o => o.date == d && o.service == s) [o₀]) := by
      unfold lastWriteTo
      rw [List.reverse_cons, List.find?_append]
    rw [hrev] at hlast
    cases hr : lastWriteTo rest d s with
    | some o₁ =>
      rw [hr] at hlast
      simp only [Option.or_some, Option.some.injEq] at hlast
      subst hlast
      exact ih _ (keyUnique_upsert hu _ _ _ _) hr
    | none =>
      rw [hr] at hlast
      simp only [Option.or] at hlast
      have hcond : (o₀.date == d && o₀.service == s) = true ∧ o₀ = o := by
        by_cases hb : (o₀.date == d && o₀.service == s) = true
        · refine ⟨hb, ?_⟩
          simp [hb] at hlast
          exact hlast
        · simp [List.find?_cons, hb] at hlast
      obtain ⟨hb, heq⟩ := hcond
      subst heq
      simp only [Bool.and_eq_true, beq_iff_eq] at hb
      have hno : ∀ o' ∈ rest, ¬(o'.date = d ∧ o'.service = s) := by
        intro o' ho' hcon
        have := List.find?_eq_none.mp hr o' (by rw [List.mem_reverse]; exact ho')
        simp [hcon.1, hcon.2] at this
      rw [recordsFor_applyUpserts_of_no_write rest _ d s hno, hb.1, hb.2,
        recordsFor_upsert_self hu d s o₀.amount o₀.currency]

/-- Witness for C4: from the empty store, two writes to the key
`(3, compute)` around a write to another key leave exactly the last
amount and currency. -/
theorem upsert_last_write_wins_witness :
    recordsFor (applyUpserts [⟨3, "compute", 1, "USD"⟩, ⟨4, "db", 7, "USD"⟩,
      ⟨3, "compute", 2, "EUR"⟩] []) 3 "compute" = [⟨3, "compute", 2, "EUR"⟩] :=
  upsert_last_write_wins _ [] 3 "compute" ⟨3, "compute", 2, "EUR"⟩
    (by simp [keyUnique]) (by decide)

/-- C2: `TrailingAverage(service, d, 7)` is the arithmetic mean of
the amounts of the existing records for that service dated strictly
before `d` and within 7 calendar days before `d` (days without a
record are simply absent from the mean — no zero-filling), is `0` when
no record qualifies, and is never changed by upserting a record dated
`d` itself, for any service. -/
theorem trailingAverage_window (store : List CostRecord) (s : String) (d : Int)
    (a : ℚ) (c : String) (s₁ : String) :
    trailingAverage store s d 7 = specTrailingMean store s d 7
    ∧ ((∀ r ∈ store, ¬(r.service = s ∧ r.date < d ∧ d - 7 ≤ r.date)) →
        trailingAverage store s d 7 = 0)
    ∧ trailingAverage (upsert store d s₁ a c) s d 7 = trailingAverage store s d 7 := by
  refine ⟨?_, ?_, ?_⟩
  · have hf : store.filter (fun r =>
        r.service == s && decide (r.date < d) && decide (r.date ≥ d - 7)) =
        store.filter (inWindow s d 7) := by
      apply List.filter_congr
      intro r _
      simp [inWindow, ge_iff_le]
    unfold trailingAverage specTrailingMean
    rw [hf]
    rcases store.filter (inWindow s d 7) with _ | ⟨r, rest⟩ <;> simp
  · intro hno
    unfold trailingAverage
    have hnil : store.filter (inWindow s d 7) = [] := by
      rw [List.filter_eq_nil_iff]
      intro r hr hcon
      simp only [inWindow, Bool.and_eq_true, beq_iff_eq, decide_eq_true_eq] at hcon
      exact hno r hr ⟨hcon.1.1, hcon.1.2, hcon.2⟩
    rw [hnil]
    rfl
  · unfold trailingAverage
    rw [filter_upsert_of_key_out store d s₁ a c (inWindow s d 7)
      (fun r => rfl) (fun r h1 _ => by simp [inWindow, h1])]

/-- Witness for C2: with one record `(5, compute, 10)`, upserting on
day 9 itself leaves the trailing average at day 9 unchanged, and a
reference day with no record in its window averages to zero. -/
theorem trailingAverage_window_witness :
    trailingAverage (upsert [⟨5, "compute", 10, "USD"⟩] 9 "db" 99 "USD") "compute" 9 7 =
      trailingAverage [⟨5, "compute", 10, "USD"⟩] "compute" 9 7
    ∧ trailingAverage [⟨5, "compute", 10, "USD"⟩] "compute" 20 7 = 0 :=
  ⟨(trailingAverage_window [⟨5, "compute", 10, "USD"⟩] "compute" 9 99 "USD" "db").2.2,
   (trailingAverage_window [⟨5, "compute", 10, "USD"⟩] "compute" 20 99 "USD" "db").2.1
     (by decide)⟩

/-! ## Detector lemmas -/

theorem alertCount_append (l₁ l₂ : List Alert) (d : Int) (s : String) :
    alertCount (l₁ ++ l₂) d s = alertCount l₁ d s + alertCount l₂ d s := by
  unfold alertCount
  rw [List.filter_append, List.length_append]

theorem detectService_of_some (store : List CostRecord) (alerts : List Alert) (d : Int)
    (s : String) (today : ℚ) (h : getAmount store d s = some today) :
    detectService store alerts d s =
      (if spikes store d s today then
        (alerts ++ [⟨d, s, "ANOMALY", today, trailingAverage store s d 7⟩], none)
       else (alerts, none)) := by
  unfold detectService spikes
  rw [h]

theorem alertCount_detectService (store : List CostRecord) (alerts : List Alert) (d : Int)
    (s₀ s : String) (hne : s₀ ≠ s) :
    alertCount (detectService store alerts d s₀).1 d s = alertCount alerts d s := by
  unfold detectService
  cases h : getAmount store d s₀ with
  | none => rfl
  | some today =>
    simp only []
    split
    · rw [alertCount_append]
      have h1 : alertCount [⟨d, s₀, "ANOMALY", today, trailingAverage store s₀ d 7⟩] d s = 0 := by
        simp [alertCount, hne]
      rw [h1, Nat.add_zero]
    · rfl


theorem alertCount_detectService_self (store : List CostRecord) (alerts : List Alert)
    (d : Int) (s : String) (today : ℚ) (h : getAmount store d s = some today) :
    alertCount (detectService store alerts d s).1 d s =
      alertCount alerts d s + (if spikes store d s today then 1 else 0) := by
  by_cases hc : spikes store d s today
  · rw [detectService_of_some store alerts d s today h, if_pos hc, if_pos hc,
      alertCount_append]
    simp [alertCount]
  · rw [detectService_of_some store alerts d s today h, if_neg hc, if_neg hc]
    rfl

theorem alertCount_detectLoop_not_mem (store : List CostRecord) (d : Int) (s : String)
    (l : List String) (hs : s ∉ l) (alerts : List Alert) :
    alertCount (detectLoop store alerts d l).1 d s = alertCount alerts d s := by
  induction l generalizing alerts with
  | nil => rfl
  | cons s₀ rest ih =>
    have hs₀ : s₀ ≠ s := fun h => hs (h ▸ List.mem_cons_self s₀ rest)
    have hsr : s ∉ rest := fun h => hs (List.mem_cons_of_mem s₀ h)
    simp only [detectLoop]
    cases hd : detectService store alerts d s₀ with
    | mk al e =>
      have hal : alertCount al d s = alertCount alerts d s := by
        have h' := alertCount_detectService store alerts d s₀ s hs₀
        rw [hd] at h'
        exact h'
      cases e with
      | some err => exact hal
      | none => exact (ih hsr al).trans hal

theorem alertCount_detectLoop_mem (store : List CostRecord) (d : Int) (s : String)
    (l : List String) (hnd : l.Nodup) (hs : s ∈ l)
    (hall : ∀ s' ∈ l, (getAmount store d s').isSome)
    (today : ℚ) (h : getAmount store d s = some today) (alerts : List Alert) :
    alertCount (detectLoop store alerts d l).1 d s =
      alertCount alerts d s + (if spikes store d s today then 1 else 0) := by
  induction l generalizing alerts with
  | nil => cases hs
  | cons s₀ rest ih =>
    simp only [detectLoop]
    rcases List.mem_cons.mp hs with heq | hmem
    · subst heq
      have hself := alertCount_detectService_self store alerts d s today h
      have h2 : (detectService store alerts d s).2 = none := by
        rw [detectService_of_some store alerts d s today h]
        split <;> rfl
      cases hd : detectService store alerts d s with
      | mk al e =>
        rw [hd] at hself h2
        subst h2
        have hnr : s ∉ rest := (List.nodup_cons.mp hnd).1
        exact (alertCount_detectLoop_not_mem store d s rest hnr al).trans hself
    · have hs₀ : s₀ ≠ s := by
        intro heq
        subst heq
        exact (List.nodup_cons.mp hnd).1 hmem
      obtain ⟨t₀, ht₀⟩ := Option.isSome_iff_exists.mp (hall s₀ (List.mem_cons_self s₀ rest))
      have h2 : (detectService store alerts d s₀).2 = none := by
        rw [detectService_of_some store alerts d s₀ t₀ ht₀]
        split <;> rfl
      have hal := alertCount_detectService store alerts d s₀ s hs₀
      cases hd : detectService store alerts d s₀ with
      | mk al e =>
        rw [hd] at hal h2
        subst h2
        rw [ih (List.nodup_cons.mp hnd).2 hmem
          (fun s' hs' => hall s' (List.mem_cons_of_mem s₀ hs')) al, hal]

/-- C1: within one `Evaluate(date)` call in which every tracked
service has a record for that date, the detector appends exactly one
alert for `(date, s)` when `avg7 > 0` and `today > 1.5 * avg7`, and
appends none otherwise — an if-and-only-if, since its count of new
`(date, s)` alerts is `1` exactly under the spike condition and `0`
exactly outside it.  The boundary instances (`avg7 = 10`, `today = 15`
vs `today = 15.01`) are exercised by the witness. -/
theorem evaluate_alert_iff (store : List CostRecord) (alerts : List Alert) (d : Int)
    (hall : ∀ s' ∈ services, (getAmount store d s').isSome)
    (s : String) (hs : s ∈ services) (today : ℚ)
    (h : getAmount store d s = some today) :
    alertCount (detectAnomaliesForDate store alerts d).1 d s =
      alertCount alerts d s + (if spikes store d s today then 1 else 0) :=
  alertCount_detectLoop_mem store d s services (by decide) hs hall today h alerts

set_option maxRecDepth 8000 in
/-- Witness for C1: with one `compute` record of amount 10 in the
window (`avg7 = 10`), a day-9 `compute` amount of exactly 15 raises no
alert, while 15.01 raises exactly one. -/
theorem evaluate_alert_iff_witness :
    alertCount (detectAnomaliesForDate [⟨5, "compute", 10, "USD"⟩, ⟨9, "compute", 15, "USD"⟩,
        ⟨9, "storage", 1, "USD"⟩, ⟨9, "db", 1, "USD"⟩, ⟨9, "network", 1, "USD"⟩] [] 9).1
        9 "compute" = 0
    ∧ alertCount (detectAnomaliesForDate [⟨5, "compute", 10, "USD"⟩,
        ⟨9, "compute", 1501/100, "USD"⟩, ⟨9, "storage", 1, "USD"⟩, ⟨9, "db", 1, "USD"⟩,
        ⟨9, "network", 1, "USD"⟩] [] 9).1 9 "compute" = 1 := by
  constructor
  · have h₁ := evaluate_alert_iff [⟨5, "compute", 10, "USD"⟩, ⟨9, "compute", 15, "USD"⟩,
      ⟨9, "storage", 1, "USD"⟩, ⟨9, "db", 1, "USD"⟩, ⟨9, "network", 1, "USD"⟩] [] 9
      (by decide) "compute" (by decide) 15 (by with_unfolding_all decide)
    rw [if_neg (by with_unfolding_all decide)] at h₁
    exact h₁.trans (by decide)
  · have h₂ := evaluate_alert_iff [⟨5, "compute", 10, "USD"⟩,
      ⟨9, "compute", 1501/100, "USD"⟩, ⟨9, "storage", 1, "USD"⟩, ⟨9, "db", 1, "USD"⟩,
      ⟨9, "network", 1, "USD"⟩] [] 9
      (by decide) "compute" (by decide) (1501/100) (by with_unfolding_all decide)
    rw [if_pos (by with_unfolding_all decide)] at h₂
    exact h₂.trans (by decide)

theorem alertCount_detectLoop_avg_zero (store : List CostRecord) (d : Int) (s : String)
    (l : List String) (havg : trailingAverage store s d 7 = 0) (alerts : List Alert) :
    alertCount (detectLoop store alerts d l).1 d s = alertCount alerts d s := by
  induction l generalizing alerts with
  | nil => rfl
  | cons s₀ rest ih =>
    simp only [detectLoop]
    by_cases hne : s₀ = s
    · subst hne
      have hal : (detectService store alerts d s₀).1 = alerts := by
        unfold detectService
        cases hg : getAmount store d s₀ with
        | none => rfl
        | some t =>
          simp only []
          rw [if_neg]
          rw [havg]
          simp
      cases hd : detectService store alerts d s₀ with
      | mk al e =>
        rw [hd] at hal
        simp only at hal
        subst hal
        cases e with
        | some err => rfl
        | none => exact ih _
    · have hal := alertCount_detectService store alerts d s₀ s hne
      cases hd : detectService store alerts d s₀ with
      | mk al e =>
        rw [hd] at hal
        cases e with
        | some err => exact hal
        | none => exact (ih al).trans hal

/-- C3: when a service has no prior history — its trailing 7-day
average is `0` — `Evaluate` raises no alert for it on that day, no
matter how large the day's amount is (`avg7 > 0` fails, so the guard
never fires): cold-start days are never flagged. -/
theorem cold_start_no_alert (store : List CostRecord) (alerts : List Alert) (d : Int)
    (s : String) (havg : trailingAverage store s d 7 = 0) :
    alertCount (detectAnomaliesForDate store alerts d).1 d s = alertCount alerts d s :=
  alertCount_detectLoop_avg_zero store d s services havg alerts

/-- Witness for C3: a store whose only record is a huge first-day
`compute` amount (100000) with no history: the trailing average is 0
and evaluation adds no `compute` alert. -/
theorem cold_start_no_alert_witness :
    trailingAverage [⟨9, "compute", 100000, "USD"⟩] "compute" 9 7 = 0
    ∧ alertCount (detectAnomaliesForDate [⟨9, "compute", 100000, "USD"⟩] [] 9).1
        9 "compute" = alertCount [] 9 "compute" :=
  ⟨by decide, cold_start_no_alert [⟨9, "compute", 100000, "USD"⟩] [] 9 "compute" (by decide)⟩

/-- C10: if, during one `Evaluate(date)` call, the point lookup of
the day's amount fails for some service while every service before it
in the fixed order (compute, storage, db, network) has a record, the
call returns the `no rows` error at that service: the later services
are never evaluated, and the alerts already appended for the earlier
services of this same call remain (no rollback). -/
theorem detect_error_midway (store : List CostRecord) (alerts : List Alert) (d : Int)
    (l₁ : List String) (s : String) (l₂ : List String)
    (hsplit : services = l₁ ++ s :: l₂)
    (hok : ∀ s' ∈ l₁, (getAmount store d s').isSome)
    (hmiss : getAmount store d s = none) :
    detectAnomaliesForDate store alerts d =
      (detectLoopOk store alerts d l₁, some "no rows in result set") := by
  unfold detectAnomaliesForDate
  rw [hsplit]
  clear hsplit
  induction l₁ generalizing alerts with
  | nil =>
    simp only [List.nil_append, detectLoop, detectLoopOk]
    unfold detectService
    rw [hmiss]
  | cons s₀ rest ih =>
    simp only [List.cons_append, detectLoop, detectLoopOk]
    obtain ⟨t₀, ht₀⟩ := Option.isSome_iff_exists.mp (hok s₀ (List.mem_cons_self s₀ rest))
    have hdet := detectService_of_some store alerts d s₀ t₀ ht₀
    by_cases hc : spikes store d s₀ t₀
    · rw [if_pos hc] at hdet
      rw [hdet]
      exact ih _ (fun s' hs' => hok s' (List.mem_cons_of_mem s₀ hs'))
    · rw [if_neg hc] at hdet
      rw [hdet]
      exact ih _ (fun s' hs' => hok s' (List.mem_cons_of_mem s₀ hs'))

/-- Witness for C10: `compute` and `storage` have day-9 records (and
`compute` spikes over its history), `db` has none: evaluation stops at
`db` with the `no rows` error, keeping the alerts of the completed
prefix and never reaching `network`. -/
theorem detect_error_midway_witness :
    detectAnomaliesForDate [⟨9, "compute", 4, "USD"⟩, ⟨9, "storage", 1, "USD"⟩,
        ⟨5, "compute", 2, "USD"⟩] [] 9 =
      (detectLoopOk [⟨9, "compute", 4, "USD"⟩, ⟨9, "storage", 1, "USD"⟩,
        ⟨5, "compute", 2, "USD"⟩] [] 9 ["compute", "storage"],
       some "no rows in result set") :=
  detect_error_midway [⟨9, "compute", 4, "USD"⟩, ⟨9, "storage", 1, "USD"⟩,
    ⟨5, "compute", 2, "USD"⟩] [] 9 ["compute", "storage"] "db" ["network"]
    rfl (by decide) (by decide)

/-! ## Sampler and scheduler lemmas -/

theorem sampleAmount_ge_floor (b u : ℚ) (spiked : Bool) :
    1/20 ≤ sampleAmount b u spiked := by
  unfold sampleAmount
  dsimp only
  by_cases h : b + (u * (3/5) - 3/10) < 1/20
  · rw [if_pos h]
    cases spiked
    · simp
    · simp only [if_true]
      norm_num
  · rw [if_neg h]
    push_neg at h
    cases spiked
    · simpa using h
    · simp only [if_true]
      linarith

/-- C8: every amount the sampler produces is at least the `0.05`
floor, hence strictly positive — even when the `3x` spike factor is
applied: no record with a zero or negative amount is ever written by
the sampling path. -/
theorem sampler_amounts_positive (day : Int) (r : Rng) (rec : CostRecord)
    (hrec : rec ∈ sampleDay day r) : 1/20 ≤ rec.amount ∧ 0 < rec.amount := by
  unfold sampleDay at hrec
  obtain ⟨p, _, rfl⟩ := List.mem_map.mp hrec
  have hf := sampleAmount_ge_floor (baseline p.2) (r.float64 p.1)
    (p.2 == spikeServiceOf r)
  exact ⟨hf, lt_of_lt_of_le (by norm_num) hf⟩

/-- Witness for C8: with a no-spike RNG whose noise draws are all 0,
the sampled `compute` record on day 4 carries amount `2.7 > 0`. -/
theorem sampler_amounts_positive_witness :
    (⟨4, "compute", 27/10, "USD"⟩ : CostRecord) ∈ sampleDay 4 ⟨1, 0, fun _ => 0⟩
    ∧ (1/20 ≤ ((⟨4, "compute", 27/10, "USD"⟩ : CostRecord)).amount
        ∧ 0 < ((⟨4, "compute", 27/10, "USD"⟩ : CostRecord)).amount) :=
  ⟨by with_unfolding_all decide,
   sampler_amounts_positive 4 ⟨1, 0, fun _ => 0⟩ ⟨4, "compute", 27/10, "USD"⟩
     (by with_unfolding_all decide)⟩

/-- C6: the sampler is a pure function of the baseline table and
the RNG draws, which the deterministic generator derives from the
seed: two runs for the same date with equal RNG states return the same
amount for every tracked service — and indeed the amount does not
depend on the date argument at all (the date only keys the row). -/
theorem sampleDay_deterministic (d₁ d₂ : Int) (r₁ r₂ : Rng) (hseed : r₁ = r₂)
    (s : String) (hs : s ∈ services) :
    ((sampleDay d₁ r₁).find? (fun rec => rec.service == s)).map (·.amount) =
      ((sampleDay d₂ r₂).find? (fun rec => rec.service == s)).map (·.amount) := by
  subst hseed
  simp only [services, List.mem_cons, List.not_mem_nil, or_false] at hs
  rcases hs with rfl | rfl | rfl | rfl <;> rfl

/-- Witness for C6: two runs on different dates with the same RNG
state yield the same `compute` amount. -/
theorem sampleDay_deterministic_witness :
    ((sampleDay 1 ⟨0, 2, fun _ => 0⟩).find? (fun rec => rec.service == "compute")).map
        (·.amount) =
      ((sampleDay 2 ⟨0, 2, fun _ => 0⟩).find? (fun rec => rec.service == "compute")).map
        (·.amount) :=
  sampleDay_deterministic 1 2 ⟨0, 2, fun _ => 0⟩ ⟨0, 2, fun _ => 0⟩ rfl "compute" (by decide)

/-- C9: the steady-state ticker loop never terminates because an
iteration fails: over any finite sequence of per-tick outcomes of
`generateAndCheckToday`, every tick completes (the iteration count
equals the tick count, whatever errors occur), each error is appended
to the log, and the loop simply proceeds to the next tick. -/
theorem scheduler_loop_survives (lg : List String) (results : List (Except String Unit)) :
    (runTicks lg results).1 = results.length
    ∧ (runTicks lg results).2.length = lg.length + results.countP isErr := by
  induction results generalizing lg with
  | nil => simp [runTicks]
  | cons r rest ih =>
    simp only [runTicks]
    refine ⟨by rw [(ih _).1, List.length_cons], ?_⟩
    rw [(ih _).2]
    cases r with
    | ok u => simp [schedulerTick, isErr, List.countP_cons]
    | error e =>
      simp only [schedulerTick, isErr, List.countP_cons, List.length_append,
        List.length_singleton, if_true]
      omega

theorem backfill_sample_days (days : Nat) (today : Int) :
    (backfillTrace days today).filterMap Event.sampleDayOf =
      ((List.range days).map (fun i : Nat => today - days + 1 + i)) ++ [today] := by
  unfold backfillTrace generateAndCheckTrace
  rw [List.filterMap_append, List.filterMap_map]
  congr 1
  exact congrFun (List.filterMap_eq_map (fun i : Nat => (today - days + 1 + i : Int)))
    (List.range days)

/-- C5: `backfill(N)` with `N ≥ 1` samples-and-upserts exactly the
last `N` calendar days ending today, in chronological order (today is
then sampled once more by the closing `generateAndCheckToday`), and
runs the anomaly detector exactly once, for today only, as the very
last step — so the `N-1` earlier days are all seeded before the first
evaluation. -/
theorem backfill_trace_spec (days : Nat) (today : Int) (hdays : 1 ≤ days) :
    (backfillTrace days today).filterMap Event.detectDayOf = [today]
    ∧ (backfillTrace days today).getLast? = some (.detect today)
    ∧ ((backfillTrace days today).filterMap Event.sampleDayOf).Pairwise (· ≤ ·)
    ∧ ∀ d : Int, d ∈ (backfillTrace days today).filterMap Event.sampleDayOf ↔
        today - days + 1 ≤ d ∧ d ≤ today := by
  refine ⟨?_, ?_, ?_, ?_⟩
  · unfold backfillTrace generateAndCheckTrace
    rw [List.filterMap_append, List.filterMap_map]
    rw [show (Event.detectDayOf ∘ fun i : Nat => Event.sample (today - days + 1 + i)) =
      (fun _ : Nat => (none : Option Int)) from rfl]
    rw [List.filterMap_eq_nil_iff.mpr (fun a _ => rfl)]
    rfl
  · unfold backfillTrace generateAndCheckTrace
    rw [show Event.sample today :: [Event.detect today] =
      [Event.sample today] ++ [Event.detect today] from rfl,
      ← List.append_assoc, List.getLast?_concat]
  · rw [backfill_sample_days]
    rw [List.pairwise_append]
    refine ⟨?_, List.pairwise_singleton _ _, ?_⟩
    · rw [List.pairwise_map]
      exact (List.pairwise_lt_range days).imp (fun hij => by omega)
    · intro x hx y hy
      obtain ⟨i, hi, rfl⟩ := List.mem_map.mp hx
      rw [List.mem_singleton] at hy
      subst hy
      rw [List.mem_range] at hi
      omega
  · intro d
    rw [backfill_sample_days, List.mem_append, List.mem_singleton, List.mem_map]
    constructor
    · rintro (⟨i, hi, rfl⟩ | rfl)
      · rw [List.mem_range] at hi
        omega
      · omega
    · rintro ⟨h1, h2⟩
      by_cases hd : d = today
      · exact Or.inr hd
      · refine Or.inl ⟨(d - (today - days + 1)).toNat, List.mem_range.mpr (by omega), by omega⟩

/-- Witness for C5: `backfill(3)` ending on day 100: the only
detection is for day 100, and day 98 (= 100-3+1) is among the sampled
days. -/
theorem backfill_trace_spec_witness :
    (backfillTrace 3 100).filterMap Event.detectDayOf = [100]
    ∧ (98 ∈ (backfillTrace 3 100).filterMap Event.sampleDayOf ↔
        (100:Int) - 3 + 1 ≤ 98 ∧ (98:Int) ≤ 100) :=
  ⟨(backfill_trace_spec 3 100 (by decide)).1,
   (backfill_trace_spec 3 100 (by decide)).2.2.2 98⟩

/-- C7 counterexample: the malformed backfill depth `days=abc` is
not rejected: `fmt.Sscanf` parses nothing and its result is ignored,
`days` keeps its preset value 30, the bounds check passes, and the
handler runs the core backfill — refuting the claim that every
malformed request is rejected with a client error before reaching the
core. -/
theorem malformed_days_reaches_core :
    handleBackfill "POST" "abc" = .runBackfill 30
    ∧ (handleBackfill "POST" "abc").isClientError = false
    ∧ (handleBackfill "POST" "abc").reachesCore = true := by
  refine ⟨?_, ?_, ?_⟩ <;> decide

/-- C7 (amended): what the API boundary actually enforces.  A read
request missing `from` or `to` is rejected with a 400 before the store
is queried (malformed non-empty date strings are forwarded to the
store unvalidated, surfacing as server errors); the core backfill only
ever runs with a days value inside `1..365`; but a malformed,
unparseable `days` parameter is not rejected — it falls back to the
default 30 and the backfill runs. -/
theorem request_validation_boundary :
    (∀ m v : String, ∀ d : Int, handleBackfill m v = .runBackfill d → 1 ≤ d ∧ d ≤ 365)
    ∧ (∀ fromP toP : String,
        (handleCosts fromP toP).reachesStore = true → fromP ≠ "" ∧ toP ≠ "")
    ∧ handleBackfill "POST" "abc" = .runBackfill 30 := by
  refine ⟨?_, ?_, by decide⟩
  · intro m v d h
    unfold handleBackfill at h
    split at h
    · exact absurd h (by simp)
    · split at h <;> dsimp only at h <;> split at h <;>
        first
        | (rename_i hbound
           rw [not_or, not_lt, not_lt] at hbound
           cases h
           omega)
        | exact absurd h (by simp)
  · intro fromP toP h
    unfold handleCosts at h
    split at h
    · exact absurd h (by simp [CostsOutcome.reachesStore])
    · rename_i hcond
      rw [not_or] at hcond
      exact hcond

/-- Witness for C7's amended theorem: ` +12xy` parses as 12 (inside
bounds, so the core runs with 12), and a well-formed read request
with both parameters present reaches the store. -/
theorem request_validation_boundary_witness :
    ((1:Int) ≤ 12 ∧ (12:Int) ≤ 365)
    ∧ ("2024-01-01" ≠ "" ∧ "2024-01-02" ≠ "") :=
  ⟨request_validation_boundary.1 "POST" " +12xy" 12 (by decide),
   request_validation_boundary.2.1 "2024-01-01" "2024-01-02" (by decide)⟩

end CostGuard
